import Mathlib

/-!
Verification of the PowerShell function extension (`src/execute-powershell-function.tsx`
and the earlier prototype in `src/unnamed/part_001`) against its specification.

The development shallowly embeds:
* the textual extraction strategy — the JavaScript regex
  `/^function\s+([a-zA-Z0-9_-]+)\s*(?:\(\s*\))?\s*\{/gm` run in an `exec` loop
  over the file content (prototype `handleReload`);
* `escapePowerShellPath` and the command string built by
  `executePowerShellFunction`;
* the Raycast `Cache` (a string-keyed store), `getFileKey`, `fetchFunctions`
  (structural strategy, cache handling and JSON decoding of the child-process
  stdout) and `handleReload` of the main file;
* the outcome (toast state) produced by `executePowerShellFunction`.

File reads, `statSync` and the child process are external effects: their results
(content, modification time, stdout/stderr or a rejection) enter the embedded
functions as explicit arguments.
-/

/-! ## Character classes of the extraction regex

`isWsChar` is JavaScript's `\s` (ECMA-262 WhiteSpace ∪ LineTerminator),
`isNameChar` is the class `[a-zA-Z0-9_-]`, and `isLineTerm` is the set of
characters after which a multiline `^` anchor matches. -/

def isWsChar (c : Char) : Bool :=
  c.toNat = 32 || c.toNat = 9 || c.toNat = 10 || c.toNat = 11 || c.toNat = 12 ||
  c.toNat = 13 || c.toNat = 0xa0 || c.toNat = 0x1680 ||
  (0x2000 ≤ c.toNat && c.toNat ≤ 0x200a) ||
  c.toNat = 0x2028 || c.toNat = 0x2029 || c.toNat = 0x202f ||
  c.toNat = 0x205f || c.toNat = 0x3000 || c.toNat = 0xfeff

def isNameChar (c : Char) : Bool :=
  (97 ≤ c.toNat && c.toNat ≤ 122) ||   -- a-z
  (65 ≤ c.toNat && c.toNat ≤ 90) ||    -- A-Z
  (48 ≤ c.toNat && c.toNat ≤ 57) ||    -- 0-9
  c = '_' || c = '-'

def isLineTerm (c : Char) : Bool :=
  c.toNat = 10 || c.toNat = 13 || c.toNat = 0x2028 || c.toNat = 0x2029

/-! ## The textual strategy (prototype `handleReload`, `src/unnamed/part_001` 85-90)

The regex `^function\s+([a-zA-Z0-9_-]+)\s*(?:\(\s*\))?\s*\{` is compiled to a
deterministic matcher: every adjacent pair of sub-patterns has disjoint first
character sets, so the greedy backtracking search of the JavaScript engine
never needs to give back characters for this particular pattern. -/

def dropWs : List Char → List Char
  | [] => []
  | c :: cs => if isWsChar c then dropWs cs else c :: cs

def takeName : List Char → List Char × List Char
  | [] => ([], [])
  | c :: cs =>
    if isNameChar c then
      let r := takeName cs
      (c :: r.1, r.2)
    else ([], c :: cs)

/-- Strips the literal `function` keyword. -/
def stripKeyword : List Char → Option (List Char)
  | 'f' :: 'u' :: 'n' :: 'c' :: 't' :: 'i' :: 'o' :: 'n' :: rest => some rest
  | _ => none

/-- The tail `\s*(?:\(\s*\))?\s*\{` of the regex, after the captured name. -/
def matchAfterName (cs : List Char) : Bool :=
  match dropWs cs with
  | '(' :: cs2 =>
    match dropWs cs2 with
    | ')' :: cs3 =>
      match dropWs cs3 with
      | '{' :: _ => true
      | _ => false
    | _ => false
  | '{' :: _ => true
  | _ => false

/-- One attempt of the whole regex at a position (which the caller has checked
to be a line start, for the `m`-flagged `^`). Returns the captured group. -/
def matchDefAt (cs : List Char) : Option String :=
  match stripKeyword cs with
  | some (c :: cs2) =>
    if isWsChar c then
      let cs3 := dropWs cs2
      match takeName cs3 with
      | ([], _) => none
      | (nm, cs4) => if matchAfterName cs4 then some ⟨nm⟩ else none
    else none
  | _ => none

/-- The `regex.exec` loop with the `g` and `m` flags: at each line-start
position try the pattern and collect the captured group. For this pattern a
line start can never fall strictly inside a preceding match, so advancing one
character at a time finds exactly the matches of the JavaScript loop. -/
def scanDefs : List Char → Bool → List String
  | [], _ => []
  | c :: cs, atStart =>
    match (if atStart then matchDefAt (c :: cs) else none) with
    | some nm => nm :: scanDefs cs (isLineTerm c)
    | none => scanDefs cs (isLineTerm c)

/-- The textual extraction of `handleReload` in `src/unnamed/part_001`: the
names pushed by the `while ((match = regex.exec(content)) !== null)` loop, in
match order.  No de-duplication is performed by the source. -/
def extractFunctions (content : String) : List String :=
  scanDefs content.data true

/-! ## A generator of scripts

To quantify over "scripts containing N zero-argument callable definitions and
M definitions with parameters" we render abstract definition lists to source
text. A definition renders as
`function NAME` + (`($p1, $p2)` when parameters are present) + ` {`,
an indented body, and a closing `}`. -/

structure FnDef where
  name : String
  params : List String
  body : List String
deriving Repr, DecidableEq

def renderParamsCore : List String → String
  | [] => ""
  | p :: ps => "$" ++ p ++ (if ps.isEmpty then "" else ", " ++ renderParamsCore ps)

def renderParams : List String → String
  | [] => ""
  | ps => "(" ++ renderParamsCore ps ++ ")"

def renderBody : List String → String
  | [] => ""
  | l :: ls => "    " ++ l ++ "\n" ++ renderBody ls

def renderDef (d : FnDef) : String :=
  "function " ++ d.name ++ renderParams d.params ++ " \x7b\n" ++
    renderBody d.body ++ "\x7d\n"

def renderScript : List FnDef → String
  | [] => ""
  | d :: ds => renderDef d ++ renderScript ds

/-- A usable identifier: nonempty, over `[a-zA-Z0-9_-]`. -/
def validIdent (s : String) : Bool :=
  !s.data.isEmpty && s.data.all isNameChar

/-- A body line carries no line terminator (it is one line). -/
def validLine (l : String) : Bool :=
  l.data.all (fun c => !isLineTerm c)

def validDef (d : FnDef) : Bool :=
  validIdent d.name && d.params.all validIdent && d.body.all validLine

def validScript (ds : List FnDef) : Bool :=
  ds.all validDef

/-! ## Path escaping (`escapePowerShellPath`, both files)

`path.replace(/'/g, "''").replace(/\\/g, '\\\\')`: two sequential global
single-character replacements. -/

/-- One global single-character `String.prototype.replace` with a literal
replacement (the replacement contains no `$` pattern). -/
def jsReplaceChar (target : Char) (repl : List Char) : List Char → List Char
  | [] => []
  | c :: cs => (if c = target then repl else [c]) ++ jsReplaceChar target repl cs

def escapePowerShellPath (path : String) : String :=
  ⟨jsReplaceChar '\\' ['\\', '\\'] (jsReplaceChar '\'' ['\'', '\''] path.data)⟩

/-- Modelled from the spec: the escaping described by the specification, a
single pass doubling every embedded single quote and every backslash and
keeping all other characters. Compared with `escapePowerShellPath`. -/
def escapeSpecChar (c : Char) : List Char :=
  if c = '\'' then ['\'', '\'']
  else if c = '\\' then ['\\', '\\']
  else [c]

def escapeSpec (path : String) : String :=
  ⟨(path.data.map escapeSpecChar).flatten⟩

/-! ## Command construction (`executePowerShellFunction`, main file 85-89) -/

/-- Line 86: `` `. '${escapedPath}'; ${functionName}` ``. -/
def buildInvokeCommand (functionName scriptPath : String) : String :=
  ". '" ++ escapePowerShellPath scriptPath ++ "'; " ++ functionName

/-- Line 89: the full child-process command handed to `exec`. -/
def buildFullCommand (functionName scriptPath : String) : String :=
  "pwsh.exe -NoProfile -ExecutionPolicy Bypass -Command \"" ++
    buildInvokeCommand functionName scriptPath ++ "\""

/-- Modelled from the spec: "validated to match an identifier pattern". The
identifier pattern of the extraction regex, `[a-zA-Z0-9_-]+`. The code of the
repository contains no such validation; the definition exists to state the
claim about it. -/
def specIsIdentifier (s : String) : Bool :=
  !s.data.isEmpty && s.data.all isNameChar

/-! ## The Raycast `Cache` store

A string-keyed, string-valued store; embedded as an association list.
`set` overwrites the first binding of the key or appends a new one,
`remove` deletes the key's bindings. -/

def cacheGet (c : List (String × String)) (k : String) : Option String :=
  match c with
  | [] => none
  | (k', v) :: rest => if k' = k then some v else cacheGet rest k

def cacheSet (c : List (String × String)) (k v : String) : List (String × String) :=
  match c with
  | [] => [(k, v)]
  | (k', v') :: rest => if k' = k then (k, v) :: rest else (k', v') :: cacheSet rest k v

def cacheRemove (c : List (String × String)) (k : String) : List (String × String) :=
  c.filter (fun e => e.1 ≠ k)

/-! ## `getFileKey` (main file 22-25)

`` `functions-${filePath}-${stats.mtimeMs}` ``. `stats.mtimeMs` is a
JavaScript number (a float); it enters the model as its decimal rendering,
which is injective on distinct timestamp values. -/

def getFileKey (filePath mtimeMs : String) : String :=
  "functions-" ++ filePath ++ "-" ++ mtimeMs

/-! ## The JSON fragment used by the component

`fetchFunctions` pipes the child-process stdout through `JSON.parse` and
stores `JSON.stringify` of the result in the cache. The values that actually
flow here are JSON strings (PowerShell's `ConvertTo-Json` of a single name)
and arrays of strings, so the embedded `JValue` covers exactly those; on any
other JSON text the embedded parser answers `none`, which the embedded
`fetchFunctions` treats as `JSON.parse` throwing. The parser accepts the
two-character escapes of JSON (`\"` `\\` `\/` `\b` `\f` `\n` `\r` `\t`); the
`\uXXXX` form, and the rejection of raw control characters, are not modelled —
neither side of any theorem below produces them. -/

inductive JValue where
  | str (s : String)
  | arr (elems : List String)
deriving Repr, DecidableEq

/-- JSON insignificant whitespace: space, tab, line feed, carriage return. -/
def isJsonWs (c : Char) : Bool :=
  c.toNat = 32 || c.toNat = 9 || c.toNat = 10 || c.toNat = 13

def dropJsonWs : List Char → List Char
  | [] => []
  | c :: cs => if isJsonWs c then dropJsonWs cs else c :: cs

/-- Decodes the character after a backslash in a JSON string. -/
def unescapeJson (c : Char) : Option Char :=
  if c = '"' then some '"'
  else if c = '\\' then some '\\'
  else if c = '/' then some '/'
  else if c = 'b' then some '\x08'
  else if c = 'f' then some '\x0c'
  else if c = 'n' then some '\n'
  else if c = 'r' then some '\r'
  else if c = 't' then some '\t'
  else none

/-- Parses a JSON string body (the opening quote already consumed); returns
the decoded characters and the input after the closing quote. -/
def parseJStr : List Char → Option (List Char × List Char)
  | [] => none
  | [c] => if c = '"' then some ([], []) else none
  | c :: e :: rest =>
    if c = '"' then some ([], e :: rest)
    else if c = '\\' then
      match unescapeJson e with
      | none => none
      | some d =>
        match parseJStr rest with
        | none => none
        | some (s, r) => some (d :: s, r)
    else
      match parseJStr (e :: rest) with
      | none => none
      | some (s, r) => some (c :: s, r)

/-- States of the array scanner: before the first item or `]`, inside a string
item, right after a backslash inside an item, or between items. -/
inductive ArrSt where
  | start
  | inStr (cur : List Char)
  | esc (cur : List Char)
  | afterItem
  | expectItem

/-- Parses `[...]` of strings (the opening bracket already consumed), one
character per step; returns the items and the input after `]`. -/
def parseJArr : List Char → ArrSt → List String → Option (List String × List Char)
  | [], _, _ => none
  | c :: cs, .start, acc =>
    if isJsonWs c then parseJArr cs .start acc
    else if c = '"' then parseJArr cs (.inStr []) acc
    else if c = ']' then some (acc.reverse, cs)
    else none
  | c :: cs, .inStr cur, acc =>
    if c = '"' then parseJArr cs .afterItem (⟨cur.reverse⟩ :: acc)
    else if c = '\\' then parseJArr cs (.esc cur) acc
    else parseJArr cs (.inStr (c :: cur)) acc
  | c :: cs, .esc cur, acc =>
    match unescapeJson c with
    | some d => parseJArr cs (.inStr (d :: cur)) acc
    | none => none
  | c :: cs, .afterItem, acc =>
    if isJsonWs c then parseJArr cs .afterItem acc
    else if c = ',' then parseJArr cs .expectItem acc
    else if c = ']' then some (acc.reverse, cs)
    else none
  | c :: cs, .expectItem, acc =>
    if isJsonWs c then parseJArr cs .expectItem acc
    else if c = '"' then parseJArr cs (.inStr []) acc
    else none

/-- The embedded `JSON.parse` over the fragment: a string or an array of
strings, with surrounding whitespace; `none` models the `SyntaxError`. -/
def jsonParse (s : String) : Option JValue :=
  match dropJsonWs s.data with
  | '"' :: rest =>
    match parseJStr rest with
    | some (body, r) => if (dropJsonWs r).isEmpty then some (.str ⟨body⟩) else none
    | none => none
  | '[' :: rest =>
    match parseJArr rest .start [] with
    | some (items, r) => if (dropJsonWs r).isEmpty then some (.arr items) else none
    | none => none
  | _ => none

/-- Encodes one character of a JSON string, as `JSON.stringify` does. (Control
characters other than the named ones would be `\uXXXX`-escaped by the real
function; they are emitted verbatim here, and the lenient parser above reads
them back verbatim, so the round trip is unaffected.) -/
def encodeJsonChar (c : Char) : List Char :=
  if c = '"' then ['\\', '"']
  else if c = '\\' then ['\\', '\\']
  else if c = '\n' then ['\\', 'n']
  else if c = '\r' then ['\\', 'r']
  else if c = '\t' then ['\\', 't']
  else if c = '\x08' then ['\\', 'b']
  else if c = '\x0c' then ['\\', 'f']
  else [c]

def encodeJsonStr (s : String) : List Char :=
  '"' :: (s.data.map encodeJsonChar).flatten ++ ['"']

def encodeJsonItems : List String → List Char
  | [] => []
  | [x] => encodeJsonStr x
  | x :: xs => encodeJsonStr x ++ ',' :: encodeJsonItems xs

/-- The embedded `JSON.stringify` (compact, as the default is). -/
def jsonStringify : JValue → String
  | .str s => ⟨encodeJsonStr s⟩
  | .arr xs => ⟨'[' :: encodeJsonItems xs ++ [']']⟩

/-! ## `fetchFunctions` (main file 27-76)

Inputs standing for the external effects:
* `cacheKey` — the result of `getFileKey` (the `statSync` call);
* `structural` — the structural strategy, i.e. the `execAsync` run of the
  PowerShell AST parse: `Except.ok stdout`, or `Except.error msg` when the
  child process rejects (non-zero exit, spawn failure);
* `cache` — the store, threaded through explicitly.

The function returns the settled promise: `Except.ok` of whatever
`JSON.parse` produced (an array — or a bare string, see `JValue`), or
`Except.error` of the message of the `Error` thrown past the `catch` block,
always `"Failed to parse PowerShell script: "` plus the inner message. A
`JSON.parse` `SyntaxError` is modelled with the fixed message `jsonErrMsg`. -/

def jsonErrMsg : String := "Unexpected token in JSON"

/-- JavaScript `String.prototype.trim`: strips leading and trailing
WhiteSpace/LineTerminator characters — exactly the `\s` class `isWsChar`. -/
def jsTrim (s : String) : String :=
  ⟨(((s.data.dropWhile isWsChar).reverse.dropWhile isWsChar).reverse : List Char)⟩

def wrapFetchError (msg : String) : String :=
  "Failed to parse PowerShell script: " ++ msg

/-- The cache-miss path, lines 39-71: run the structural strategy, decode its
stdout (`stdout.trim() ? JSON.parse(stdout) : []`), store the re-serialized
result under the key, and return it. -/
def fetchFresh (cache : List (String × String)) (cacheKey : String)
    (structural : Except String String) :
    Except String JValue × List (String × String) :=
  match structural with
  | .error msg => (.error (wrapFetchError msg), cache)
  | .ok stdout =>
    if jsTrim stdout = "" then
      (.ok (.arr []), cacheSet cache cacheKey (jsonStringify (.arr [])))
    else
      match jsonParse stdout with
      | some v => (.ok v, cacheSet cache cacheKey (jsonStringify v))
      | none => (.error (wrapFetchError jsonErrMsg), cache)

/-- Lines 27-76. The cached value is used only when `forceReload` is false and
`cache.get` returns a truthy (non-empty) string; `JSON.parse` of a garbled
cached value throws into the same `catch`. -/
def fetchFunctions (cache : List (String × String)) (cacheKey : String)
    (forceReload : Bool) (structural : Except String String) :
    Except String JValue × List (String × String) :=
  match (if forceReload then none else cacheGet cache cacheKey) with
  | some cached =>
    if cached = "" then fetchFresh cache cacheKey structural
    else
      match jsonParse cached with
      | some v => (.ok v, cache)
      | none => (.error (wrapFetchError jsonErrMsg), cache)
  | none => fetchFresh cache cacheKey structural

/-! ## `executePowerShellFunction` (main file 78-105)

The child process result: `ok stdout stderr` when `execAsync` resolves (exit
status zero), `err msg` when it rejects (non-zero exit or spawn failure; `msg`
is the rejection's `error.message`). The returned value is the final state of
the toast, the user-visible outcome. -/

inductive ProcResult where
  | ok (stdout stderr : String)
  | err (msg : String)

inductive ToastStyle where
  | animated
  | success
  | failure
deriving DecidableEq, Repr

structure Outcome where
  style : ToastStyle
  title : String
  message : Option String
deriving DecidableEq, Repr

def executePowerShellFunction (functionName : String) (proc : ProcResult) : Outcome :=
  match proc with
  | .ok stdout stderr =>
    if stderr ≠ "" then
      { style := .failure
        title := "Failed to Execute \"" ++ functionName ++ "\""
        message := some stderr }
    else
      { style := .success
        title := "Executed \"" ++ functionName ++ "\" Successfully"
        message := if jsTrim stdout ≠ "" then some ("Output: " ++ jsTrim stdout) else none }
  | .err msg =>
    { style := .failure
      title := "Failed to Execute \"" ++ functionName ++ "\""
      message := some msg }

/-! ## `handleReload` (main file 149-156)

```
const cacheKey = getFileKey(resolvedPath);
cache.remove(cacheKey); // Clear the cache
```
`getFileKey` is `async` and the call is not awaited: `cacheKey` is a
`Promise<string>`, not a string. Coerced to a string key, a promise renders
as `"[object Promise]"`, so that is the key the removal targets — never the
`functions-<path>-<mtime>` key the entries live under. -/

def promiseKeyString : String := "[object Promise]"

def handleReload (cache : List (String × String)) (resolvedPath : Option String) :
    List (String × String) :=
  match resolvedPath with
  | some _ => cacheRemove cache promiseKeyString
  | none => cache

/-! ## Helper lemmas: strings, character classes and the scanner -/

theorem strData_append (s t : String) : (s ++ t).data = s.data ++ t.data := rfl


theorem strMk_data (s : String) : (⟨s.data⟩ : String) = s := rfl

theorem nameChar_not_ws {c : Char} (h : isNameChar c = true) : isWsChar c = false := by
  simp only [isNameChar, Bool.or_eq_true, Bool.and_eq_true, decide_eq_true_eq] at h
  simp only [isWsChar, Bool.or_eq_false_iff, Bool.and_eq_false_iff, decide_eq_false_iff_not]
  rcases h with ((((h | h) | h) | h) | h)
  all_goals first
    | (obtain ⟨h1, h2⟩ := h; omega)
    | (subst h; decide)

theorem nameChar_not_lineTerm {c : Char} (h : isNameChar c = true) : isLineTerm c = false := by
  simp only [isNameChar, Bool.or_eq_true, Bool.and_eq_true, decide_eq_true_eq] at h
  simp only [isLineTerm, Bool.or_eq_false_iff, decide_eq_false_iff_not]
  rcases h with ((((h | h) | h) | h) | h)
  all_goals first
    | (obtain ⟨h1, h2⟩ := h; omega)
    | (subst h; decide)

theorem dropWs_cons_neg {c : Char} (h : isWsChar c = false) (cs : List Char) :
    dropWs (c :: cs) = c :: cs := by
  simp [dropWs, h]

theorem takeName_append {xs : List Char} (hx : xs.all isNameChar = true)
    {ys : List Char} (hy : takeName ys = ([], ys)) :
    takeName (xs ++ ys) = (xs, ys) := by
  induction xs with
  | nil => simpa using hy
  | cons c cs ih =>
    simp only [List.all_cons, Bool.and_eq_true] at hx
    simp [takeName, hx.1, ih hx.2]

theorem takeName_stop {c : Char} (h : isNameChar c = false) (cs : List Char) :
    takeName (c :: cs) = ([], c :: cs) := by
  simp [takeName, h]

theorem scan_skip_line {l : List Char} (h : l.all (fun c => !isLineTerm c) = true)
    (rest : List Char) :
    scanDefs (l ++ '\n' :: rest) false = scanDefs rest true := by
  have hnl : isLineTerm '\n' = true := by decide
  induction l with
  | nil => simp [scanDefs, hnl]
  | cons c cs ih =>
    simp only [List.all_cons, Bool.and_eq_true, Bool.not_eq_eq_eq_not, Bool.not_true] at h
    simp [scanDefs, h.1, ih h.2]

theorem scan_line_nomatch {l : List Char} (h : l.all (fun c => !isLineTerm c) = true)
    {rest : List Char} (hm : matchDefAt (l ++ '\n' :: rest) = none) :
    scanDefs (l ++ '\n' :: rest) true = scanDefs rest true := by
  have hnl : isLineTerm '\n' = true := by decide
  cases l with
  | nil => simp only [List.nil_append] at hm ⊢; simp [scanDefs, hm, hnl]
  | cons c cs =>
    simp only [List.all_cons, Bool.and_eq_true, Bool.not_eq_eq_eq_not, Bool.not_true] at h
    simp only [List.cons_append] at hm ⊢
    simp [scanDefs, hm, h.1, scan_skip_line h.2]

theorem scan_line_match {c : Char} {l : List Char}
    (h : (c :: l).all (fun c => !isLineTerm c) = true)
    {rest : List Char} {nm : String}
    (hm : matchDefAt (c :: l ++ '\n' :: rest) = some nm) :
    scanDefs ((c :: l) ++ '\n' :: rest) true = nm :: scanDefs rest true := by
  simp only [List.all_cons, Bool.and_eq_true, Bool.not_eq_eq_eq_not, Bool.not_true] at h
  simp only [List.cons_append] at hm ⊢
  simp [scanDefs, hm, h.1, scan_skip_line h.2]

theorem validIdent_data {n : String} (h : validIdent n = true) :
    n.data ≠ [] ∧ n.data.all isNameChar = true := by
  simp only [validIdent, Bool.and_eq_true, Bool.not_eq_eq_eq_not, Bool.not_true,
    List.isEmpty_eq_false] at h
  exact h

theorem matchDefAt_header_zero {n : String} (hn : validIdent n = true) (rest : List Char) :
    matchDefAt ("function ".data ++ n.data ++ ' ' :: '{' :: rest) = some n := by
  obtain ⟨hne, hall⟩ := validIdent_data hn
  have hsplit : "function ".data ++ n.data ++ ' ' :: '{' :: rest =
      'f' :: 'u' :: 'n' :: 'c' :: 't' :: 'i' :: 'o' :: 'n' :: ' ' ::
        (n.data ++ ' ' :: '{' :: rest) := rfl
  rw [hsplit]
  cases hd : n.data with
  | nil => exact absurd hd hne
  | cons c0 cs =>
    have hall' := hall
    rw [hd] at hall'
    simp only [List.all_cons, Bool.and_eq_true] at hall'
    have hstop : takeName (' ' :: '{' :: rest) = ([], ' ' :: '{' :: rest) :=
      takeName_stop (by decide) _
    have htn : takeName (n.data ++ ' ' :: '{' :: rest) = (n.data, ' ' :: '{' :: rest) :=
      takeName_append hall hstop
    rw [hd] at htn
    simp only [matchDefAt, stripKeyword]
    rw [show isWsChar ' ' = true from by decide]
    simp only [if_true]
    rw [List.cons_append, dropWs_cons_neg (nameChar_not_ws hall'.1), ← List.cons_append, htn]
    have hma : matchAfterName (' ' :: '{' :: rest) = true := by
      simp [matchAfterName, dropWs, show isWsChar ' ' = true from by decide,
        show isWsChar '{' = false from by decide]
    simp only [hma, if_true]
    rw [← hd, strMk_data]

theorem matchDefAt_header_params {n : String} (hn : validIdent n = true) (rest : List Char) :
    matchDefAt ("function ".data ++ n.data ++ '(' :: '$' :: rest) = none := by
  obtain ⟨hne, hall⟩ := validIdent_data hn
  have hsplit : "function ".data ++ n.data ++ '(' :: '$' :: rest =
      'f' :: 'u' :: 'n' :: 'c' :: 't' :: 'i' :: 'o' :: 'n' :: ' ' ::
        (n.data ++ '(' :: '$' :: rest) := rfl
  rw [hsplit]
  cases hd : n.data with
  | nil => exact absurd hd hne
  | cons c0 cs =>
    have hall' := hall
    rw [hd] at hall'
    simp only [List.all_cons, Bool.and_eq_true] at hall'
    have hstop : takeName ('(' :: '$' :: rest) = ([], '(' :: '$' :: rest) :=
      takeName_stop (by decide) _
    have htn : takeName (n.data ++ '(' :: '$' :: rest) = (n.data, '(' :: '$' :: rest) :=
      takeName_append hall hstop
    rw [hd] at htn
    simp only [matchDefAt, stripKeyword]
    rw [show isWsChar ' ' = true from by decide]
    simp only [if_true]
    rw [List.cons_append, dropWs_cons_neg (nameChar_not_ws hall'.1), ← List.cons_append, htn]
    have hma : matchAfterName ('(' :: '$' :: rest) = false := by
      simp [matchAfterName, dropWs, show isWsChar '(' = false from by decide,
        show isWsChar '$' = false from by decide]
    simp [hma]


theorem noLT_of_name {s : List Char} (h : s.all isNameChar = true) :
    s.all (fun c => !isLineTerm c) = true := by
  simp only [List.all_eq_true] at h ⊢
  intro c hc
  simp [nameChar_not_lineTerm (h c hc)]

theorem paramsCore_noLT {ps : List String} (h : ps.all validIdent = true) :
    (renderParamsCore ps).data.all (fun c => !isLineTerm c) = true := by
  induction ps with
  | nil => decide
  | cons p ps ih =>
    simp only [List.all_cons, Bool.and_eq_true] at h
    obtain ⟨hne, hall⟩ := validIdent_data h.1
    cases ps with
    | nil =>
      have hshape : renderParamsCore [p] = "$" ++ p ++ "" := rfl
      rw [hshape]
      have : ("$" ++ p ++ "").data = '$' :: (p.data ++ []) := rfl
      rw [this]
      simp only [List.all_cons, List.all_append, Bool.and_eq_true]
      exact ⟨by decide, noLT_of_name hall, by decide⟩
    | cons q qs =>
      have hshape : renderParamsCore (p :: q :: qs) =
          "$" ++ p ++ (", " ++ renderParamsCore (q :: qs)) := rfl
      rw [hshape]
      have : ("$" ++ p ++ (", " ++ renderParamsCore (q :: qs))).data =
          '$' :: (p.data ++ ',' :: ' ' :: (renderParamsCore (q :: qs)).data) := rfl
      rw [this]
      simp only [List.all_cons, List.all_append, Bool.and_eq_true]
      exact ⟨by decide, noLT_of_name hall, by decide, by decide, ih h.2⟩

theorem scan_renderBody {b : List String} (h : b.all validLine = true) (rest : List Char) :
    scanDefs ((renderBody b).data ++ rest) true = scanDefs rest true := by
  induction b with
  | nil => rfl
  | cons l ls ih =>
    simp only [List.all_cons, Bool.and_eq_true] at h
    have hshape : (renderBody (l :: ls)).data ++ rest =
        (' ' :: ' ' :: ' ' :: ' ' :: l.data) ++ '\n' :: ((renderBody ls).data ++ rest) := by
      show ("    " ++ l ++ "\n" ++ renderBody ls).data ++ rest = _
      simp [strData_append]
    rw [hshape]
    rw [scan_line_nomatch ?hall ?hm]
    · exact ih h.2
    case hall =>
      simp only [List.all_cons, Bool.and_eq_true]
      have hl : l.data.all (fun c => !isLineTerm c) = true := h.1
      exact ⟨by decide, by decide, by decide, by decide, hl⟩
    case hm => rfl

theorem all_noLT_append {l1 l2 : List Char}
    (h1 : l1.all (fun c => !isLineTerm c) = true)
    (h2 : l2.all (fun c => !isLineTerm c) = true) :
    (l1 ++ l2).all (fun c => !isLineTerm c) = true := by
  rw [List.all_append, h1, h2]
  rfl

theorem all_noLT_cons {c : Char} {l : List Char}
    (h1 : isLineTerm c = false)
    (h2 : l.all (fun c => !isLineTerm c) = true) :
    (c :: l).all (fun c => !isLineTerm c) = true := by
  rw [List.all_cons, h1, h2]
  rfl

theorem scan_line_match2 {l : List Char} (hne : l ≠ [])
    (h : l.all (fun c => !isLineTerm c) = true)
    {rest : List Char} {nm : String}
    (hm : matchDefAt (l ++ '\n' :: rest) = some nm) :
    scanDefs (l ++ '\n' :: rest) true = nm :: scanDefs rest true := by
  cases l with
  | nil => exact absurd rfl hne
  | cons c cs => exact scan_line_match h hm

theorem scan_renderDef {d : FnDef} (hd : validDef d = true) (rest : List Char) :
    scanDefs ((renderDef d).data ++ rest) true =
      (if d.params.isEmpty then [d.name] else []) ++ scanDefs rest true := by
  obtain ⟨n, ps, b⟩ := d
  simp only [validDef, Bool.and_eq_true] at hd
  obtain ⟨⟨hn, hps⟩, hb⟩ := hd
  have hclose : ∀ r : List Char, scanDefs ('}' :: '\n' :: r) true = scanDefs r true := by
    intro r
    exact scan_line_nomatch (l := ['}']) (by decide) (rfl)
  cases ps with
  | nil =>
    have hfull : (renderDef ⟨n, [], b⟩).data ++ rest =
        ("function ".data ++ n.data ++ [' ', '{']) ++ '\n' ::
          ((renderBody b).data ++ '}' :: '\n' :: rest) := by
      show ("function " ++ n ++ renderParams [] ++ " \x7b\n" ++
        renderBody b ++ "\x7d\n").data ++ rest = _
      have h1 : renderParams [] = "" := rfl
      have h2 : (" \x7b\n" : String).data = [' ', '{', '\n'] := rfl
      have h3 : ("\x7d\n" : String).data = ['}', '\n'] := rfl
      have h4 : ("" : String).data = [] := rfl
      simp [strData_append, h1, h2, h3, h4, List.append_assoc]
    rw [hfull]
    have hm : matchDefAt (("function ".data ++ n.data ++ [' ', '{']) ++ '\n' ::
        ((renderBody b).data ++ '}' :: '\n' :: rest)) = some n := by
      have := matchDefAt_header_zero hn ('\n' :: ((renderBody b).data ++ '}' :: '\n' :: rest))
      simpa [List.append_assoc] using this
    have hall : ("function ".data ++ n.data ++ [' ', '{']).all (fun c => !isLineTerm c) = true :=
      all_noLT_append (all_noLT_append (by decide)
        (noLT_of_name (validIdent_data hn).2)) (by decide)
    have hne : ("function ".data ++ n.data ++ [' ', '{']) ≠ [] := by
      simp [strData_append]
    rw [scan_line_match2 hne hall hm, scan_renderBody hb, hclose]
    rfl
  | cons p qs =>
    have hcore : (renderParamsCore (p :: qs)).data =
        '$' :: (p.data ++ (if qs.isEmpty then "" else ", " ++ renderParamsCore qs).data) := rfl
    have hfull : (renderDef ⟨n, p :: qs, b⟩).data ++ rest =
        ("function ".data ++ n.data ++ '(' :: (renderParamsCore (p :: qs)).data ++ [')', ' ', '{'])
          ++ '\n' :: ((renderBody b).data ++ '}' :: '\n' :: rest) := by
      show ("function " ++ n ++ renderParams (p :: qs) ++ " \x7b\n" ++
        renderBody b ++ "\x7d\n").data ++ rest = _
      have h1 : renderParams (p :: qs) = "(" ++ renderParamsCore (p :: qs) ++ ")" := rfl
      have h2 : (" \x7b\n" : String).data = [' ', '{', '\n'] := rfl
      have h3 : ("\x7d\n" : String).data = ['}', '\n'] := rfl
      have h5 : ("(" : String).data = ['('] := rfl
      have h6 : (")" : String).data = [')'] := rfl
      simp [strData_append, h1, h2, h3, h5, h6, List.append_assoc]
    rw [hfull]
    have hm : matchDefAt (("function ".data ++ n.data ++ '(' ::
        (renderParamsCore (p :: qs)).data ++ [')', ' ', '{']) ++ '\n' ::
          ((renderBody b).data ++ '}' :: '\n' :: rest)) = none := by
      rw [hcore]
      have := matchDefAt_header_params hn
        ((p.data ++ (if qs.isEmpty then "" else ", " ++ renderParamsCore qs).data) ++
          [')', ' ', '{'] ++ '\n' :: ((renderBody b).data ++ '}' :: '\n' :: rest))
      simpa [List.append_assoc] using this
    have hall : ("function ".data ++ n.data ++ '(' ::
        (renderParamsCore (p :: qs)).data ++ [')', ' ', '{']).all
          (fun c => !isLineTerm c) = true :=
      all_noLT_append
        (all_noLT_append (all_noLT_append (by decide)
          (noLT_of_name (validIdent_data hn).2))
          (all_noLT_cons (by decide) (paramsCore_noLT hps)))
        (by decide)
    rw [scan_line_nomatch hall hm, scan_renderBody hb, hclose]
    rfl

theorem extract_renderScript {ds : List FnDef} (h : validScript ds = true) :
    extractFunctions (renderScript ds) =
      (ds.filter (fun d => d.params.isEmpty)).map FnDef.name := by
  suffices hgen : ∀ rest : List Char, scanDefs ((renderScript ds).data ++ rest) true =
      (ds.filter (fun d => d.params.isEmpty)).map FnDef.name ++ scanDefs rest true by
    have := hgen []
    simpa [extractFunctions, scanDefs] using this
  induction ds with
  | nil => intro rest; simp [renderScript]
  | cons d ds ih =>
    intro rest
    simp only [validScript, List.all_cons, Bool.and_eq_true] at h
    have hshape : (renderScript (d :: ds)).data ++ rest =
        (renderDef d).data ++ ((renderScript ds).data ++ rest) := by
      show (renderDef d ++ renderScript ds).data ++ rest = _
      simp [strData_append]
    rw [hshape, scan_renderDef h.1]
    have ih' := ih h.2 rest
    rw [ih']
    cases hp : d.params.isEmpty <;> simp [List.filter_cons, hp]

/-! ## JSON round-trip lemmas -/

theorem encodeJsonChar_spec (c : Char) :
    (∃ e, encodeJsonChar c = ['\\', e] ∧ unescapeJson e = some c) ∨
    (encodeJsonChar c = [c] ∧ c ≠ '"' ∧ c ≠ '\\') := by
  by_cases h1 : c = '"'
  · exact .inl ⟨'"', by simp [encodeJsonChar, h1], by subst h1; decide⟩
  by_cases h2 : c = '\\'
  · exact .inl ⟨'\\', by simp [encodeJsonChar, h1, h2], by subst h2; decide⟩
  by_cases h3 : c = '\n'
  · exact .inl ⟨'n', by simp [encodeJsonChar, h1, h2, h3], by subst h3; decide⟩
  by_cases h4 : c = '\r'
  · exact .inl ⟨'r', by simp [encodeJsonChar, h1, h2, h3, h4], by subst h4; decide⟩
  by_cases h5 : c = '\t'
  · exact .inl ⟨'t', by simp [encodeJsonChar, h1, h2, h3, h4, h5], by subst h5; decide⟩
  by_cases h6 : c = '\x08'
  · exact .inl ⟨'b', by simp [encodeJsonChar, h1, h2, h3, h4, h5, h6], by subst h6; decide⟩
  by_cases h7 : c = '\x0c'
  · exact .inl ⟨'f', by simp [encodeJsonChar, h1, h2, h3, h4, h5, h6, h7], by subst h7; decide⟩
  · exact .inr ⟨by simp [encodeJsonChar, h1, h2, h3, h4, h5, h6, h7], h1, h2⟩

theorem parseJStr_cons_ne {c : Char} (h1 : c ≠ '"') (h2 : c ≠ '\\')
    {l : List Char} (hl : l ≠ []) :
    parseJStr (c :: l) =
      match parseJStr l with
      | none => none
      | some (s, r) => some (c :: s, r) := by
  cases l with
  | nil => exact absurd rfl hl
  | cons e rest => simp [parseJStr, h1, h2]

theorem parseJStr_encode (l : List Char) (rest : List Char) :
    parseJStr ((l.map encodeJsonChar).flatten ++ '"' :: rest) = some (l, rest) := by
  induction l with
  | nil =>
    cases rest with
    | nil => simp [parseJStr]
    | cons e r => simp [parseJStr]
  | cons c cs ih =>
    rcases encodeJsonChar_spec c with ⟨e, he, hu⟩ | ⟨he, h1, h2⟩
    · rw [List.map_cons, List.flatten_cons, he]
      show parseJStr ('\\' :: (e :: ((List.map encodeJsonChar cs).flatten ++ '"' :: rest))) = _
      simp [parseJStr, hu, ih]
    · rw [List.map_cons, List.flatten_cons, he]
      show parseJStr (c :: ((List.map encodeJsonChar cs).flatten ++ '"' :: rest)) = _
      rw [parseJStr_cons_ne h1 h2 (by simp), ih]

theorem parseJArr_encoded (l : List Char) (cur : List Char) (acc : List String)
    (rest : List Char) :
    parseJArr ((l.map encodeJsonChar).flatten ++ rest) (.inStr cur) acc =
      parseJArr rest (.inStr (l.reverse ++ cur)) acc := by
  induction l generalizing cur with
  | nil => simp
  | cons c cs ih =>
    rcases encodeJsonChar_spec c with ⟨e, he, hu⟩ | ⟨he, h1, h2⟩
    · rw [List.map_cons, List.flatten_cons, he]
      show parseJArr ('\\' :: (e :: ((List.map encodeJsonChar cs).flatten ++ rest)))
        (.inStr cur) acc = _
      rw [show ∀ z, parseJArr ('\\' :: z) (.inStr cur) acc = parseJArr z (.esc cur) acc from
        fun z => by simp [parseJArr]]
      rw [show parseJArr (e :: ((List.map encodeJsonChar cs).flatten ++ rest)) (.esc cur) acc =
        parseJArr ((List.map encodeJsonChar cs).flatten ++ rest) (.inStr (c :: cur)) acc from
        by simp [parseJArr, hu]]
      rw [ih (c :: cur)]
      simp
    · rw [List.map_cons, List.flatten_cons, he]
      show parseJArr (c :: ((List.map encodeJsonChar cs).flatten ++ rest)) (.inStr cur) acc = _
      rw [show parseJArr (c :: ((List.map encodeJsonChar cs).flatten ++ rest)) (.inStr cur) acc =
        parseJArr ((List.map encodeJsonChar cs).flatten ++ rest) (.inStr (c :: cur)) acc from
        by simp [parseJArr, h1, h2]]
      rw [ih (c :: cur)]
      simp

theorem parseJArr_item {st : ArrSt} (hst : st = ArrSt.start ∨ st = ArrSt.expectItem)
    (x : String) (acc : List String) (rest : List Char) :
    parseJArr (encodeJsonStr x ++ rest) st acc =
      parseJArr rest .afterItem (x :: acc) := by
  have hshape : encodeJsonStr x ++ rest =
      '"' :: ((x.data.map encodeJsonChar).flatten ++ '"' :: rest) := by
    simp [encodeJsonStr]
  rw [hshape]
  have hopen : parseJArr ('"' :: ((x.data.map encodeJsonChar).flatten ++ '"' :: rest)) st acc =
      parseJArr ((x.data.map encodeJsonChar).flatten ++ '"' :: rest) (.inStr []) acc := by
    rcases hst with h | h <;> subst h <;>
      simp [parseJArr, show isJsonWs '"' = false from by decide]
  rw [hopen, parseJArr_encoded]
  have hclosequote : parseJArr ('"' :: rest) (.inStr (x.data.reverse ++ [])) acc =
      parseJArr rest .afterItem (⟨(x.data.reverse ++ []).reverse⟩ :: acc) := by
    simp [parseJArr]
  rw [hclosequote]
  simp [strMk_data]

theorem parseJArr_chain (xs : List String) (x : String) {st : ArrSt}
    (hst : st = ArrSt.start ∨ st = ArrSt.expectItem) (acc : List String) (rest : List Char) :
    parseJArr (encodeJsonItems (x :: xs) ++ ']' :: rest) st acc =
      some (acc.reverse ++ x :: xs, rest) := by
  induction xs generalizing x st acc with
  | nil =>
    have hshape : encodeJsonItems [x] = encodeJsonStr x := rfl
    rw [hshape, parseJArr_item hst]
    simp [parseJArr, show isJsonWs ']' = false from by decide]
  | cons y ys ih =>
    have hshape : encodeJsonItems (x :: y :: ys) ++ ']' :: rest =
        encodeJsonStr x ++ ',' :: (encodeJsonItems (y :: ys) ++ ']' :: rest) := by
      show (encodeJsonStr x ++ ',' :: encodeJsonItems (y :: ys)) ++ ']' :: rest = _
      simp
    rw [hshape, parseJArr_item hst]
    have hcomma : parseJArr (',' :: (encodeJsonItems (y :: ys) ++ ']' :: rest))
        .afterItem (x :: acc) =
        parseJArr (encodeJsonItems (y :: ys) ++ ']' :: rest) .expectItem (x :: acc) := by
      simp [parseJArr, show isJsonWs ',' = false from by decide]
    rw [hcomma, ih y (.inr rfl) (x :: acc)]
    simp

theorem jsonParse_stringify (v : JValue) : jsonParse (jsonStringify v) = some v := by
  cases v with
  | str s =>
    have hdata : (jsonStringify (.str s)).data =
        '"' :: ((s.data.map encodeJsonChar).flatten ++ '"' :: []) := by
      show (⟨encodeJsonStr s⟩ : String).data = _
      simp [encodeJsonStr]
    rw [jsonParse, hdata]
    have hdrop : dropJsonWs ('"' :: ((s.data.map encodeJsonChar).flatten ++ '"' :: [])) =
        '"' :: ((s.data.map encodeJsonChar).flatten ++ '"' :: []) := by
      simp [dropJsonWs, show isJsonWs '"' = false from by decide]
    rw [hdrop]
    simp [parseJStr_encode, dropJsonWs, strMk_data]
  | arr xs =>
    cases xs with
    | nil => rfl
    | cons x ys =>
      have hdata : (jsonStringify (.arr (x :: ys))).data =
          '[' :: (encodeJsonItems (x :: ys) ++ ']' :: []) := by
        show (⟨'[' :: encodeJsonItems (x :: ys) ++ [']']⟩ : String).data = _
        simp
      rw [jsonParse, hdata]
      have hdrop : dropJsonWs ('[' :: (encodeJsonItems (x :: ys) ++ ']' :: [])) =
          '[' :: (encodeJsonItems (x :: ys) ++ ']' :: []) := by
        simp [dropJsonWs, show isJsonWs '[' = false from by decide]
      rw [hdrop]
      simp [parseJArr_chain ys x (.inl rfl), dropJsonWs]

/-! ## Cache and fetch lemmas -/

theorem cacheGet_set_self (c : List (String × String)) (k v : String) :
    cacheGet (cacheSet c k v) k = some v := by
  induction c with
  | nil => simp [cacheSet, cacheGet]
  | cons e rest ih =>
    by_cases h : e.1 = k
    · simp [cacheSet, cacheGet, h]
    · simp [cacheSet, cacheGet, h, ih]

theorem jsonStringify_ne_empty (v : JValue) : jsonStringify v ≠ "" := by
  cases v with
  | str s =>
    show (⟨encodeJsonStr s⟩ : String) ≠ ""
    intro h
    have := congrArg String.data h
    simp [encodeJsonStr] at this
  | arr xs =>
    show (⟨'[' :: encodeJsonItems xs ++ [']']⟩ : String) ≠ ""
    intro h
    have := congrArg String.data h
    simp at this

theorem fetchFresh_ok {c : List (String × String)} {k : String}
    {s : Except String String} {v : JValue} {c2 : List (String × String)}
    (h : fetchFresh c k s = (.ok v, c2)) :
    c2 = cacheSet c k (jsonStringify v) := by
  match s with
  | .error msg => simp [fetchFresh] at h
  | .ok stdout =>
    by_cases ht : jsTrim stdout = ""
    · simp only [fetchFresh, ht, if_true] at h
      obtain ⟨h1, h2⟩ := Prod.mk.injEq .. ▸ h
      cases h1
      exact h2.symm
    · simp only [fetchFresh, ht, if_false] at h
      match hp : jsonParse stdout with
      | some w =>
        rw [hp] at h
        obtain ⟨h1, h2⟩ := Prod.mk.injEq .. ▸ h
        cases h1
        exact h2.symm
      | none => rw [hp] at h; simp at h

theorem fetchFunctions_false_eq (c : List (String × String)) (k : String)
    (s : Except String String) :
    fetchFunctions c k false s =
      match cacheGet c k with
      | some cached =>
        if cached = "" then fetchFresh c k s
        else
          match jsonParse cached with
          | some v => (.ok v, c)
          | none => (.error (wrapFetchError jsonErrMsg), c)
      | none => fetchFresh c k s := rfl

theorem fetch_second_call {c c2 : List (String × String)} {k : String}
    {s : Except String String} {v : JValue}
    (h : fetchFunctions c k false s = (.ok v, c2)) :
    ∀ s', fetchFunctions c2 k false s' = (.ok v, c2) := by
  intro s'
  have fresh_case : fetchFresh c k s = (.ok v, c2) →
      fetchFunctions c2 k false s' = (.ok v, c2) := by
    intro hf
    have hc2 := fetchFresh_ok hf
    subst hc2
    have hget := cacheGet_set_self c k (jsonStringify v)
    rw [fetchFunctions_false_eq]
    simp [hget, jsonStringify_ne_empty v, jsonParse_stringify]
  rw [fetchFunctions_false_eq] at h
  match hg : cacheGet c k with
  | none =>
    rw [hg] at h
    exact fresh_case h
  | some cached =>
    rw [hg] at h
    simp only at h
    by_cases he : cached = ""
    · rw [if_pos he] at h
      exact fresh_case h
    · rw [if_neg he] at h
      match hp : jsonParse cached with
      | some w =>
        rw [hp] at h
        simp only at h
        obtain ⟨h1, h2⟩ := Prod.mk.injEq .. ▸ h
        cases h1
        cases h2
        rw [fetchFunctions_false_eq]
        simp [hg, he, hp]
      | none =>
        rw [hp] at h
        simp at h

theorem fetchFunctions_force (c : List (String × String)) (k : String)
    (s : Except String String) :
    fetchFunctions c k true s = fetchFresh c k s := rfl

theorem fetchFunctions_miss {c : List (String × String)} {k : String}
    (h : cacheGet c k = none) (s : Except String String) :
    fetchFunctions c k false s = fetchFresh c k s := by
  rw [fetchFunctions_false_eq]
  simp [h]

theorem getFileKey_mtime_inj (p : String) {t1 t2 : String} (h : t1 ≠ t2) :
    getFileKey p t1 ≠ getFileKey p t2 := by
  intro he
  apply h
  have hd := congrArg String.data he
  simp only [getFileKey, strData_append] at hd
  have h1 := List.append_cancel_left hd
  calc t1 = ⟨t1.data⟩ := (strMk_data t1).symm
    _ = ⟨t2.data⟩ := by rw [h1]
    _ = t2 := strMk_data t2

theorem cacheGet_single_ne {k1 k2 v : String} (h : k1 ≠ k2) :
    cacheGet [(k1, v)] k2 = none := by
  simp [cacheGet, h]

/-! ## Escaping lemmas -/

theorem jsReplaceChar_append (t : Char) (r : List Char) (l1 l2 : List Char) :
    jsReplaceChar t r (l1 ++ l2) = jsReplaceChar t r l1 ++ jsReplaceChar t r l2 := by
  induction l1 with
  | nil => simp [jsReplaceChar]
  | cons c cs ih => simp [jsReplaceChar, ih]

theorem escape_eq_spec (path : String) : escapePowerShellPath path = escapeSpec path := by
  show (⟨jsReplaceChar '\\' ['\\', '\\'] (jsReplaceChar '\'' ['\'', '\''] path.data)⟩ : String) =
    ⟨(path.data.map escapeSpecChar).flatten⟩
  congr 1
  induction path.data with
  | nil => rfl
  | cons c cs ih =>
    simp only [jsReplaceChar, List.map_cons, List.flatten_cons]
    rw [jsReplaceChar_append, ih]
    congr 1
    by_cases h1 : c = '\''
    · subst h1; rfl
    · by_cases h2 : c = '\\'
      · subst h2; rfl
      · simp [escapeSpecChar, h1, h2, jsReplaceChar]

/-! ## The claims -/

/-- Claim C1, counterexample. The claim says a structural-strategy throw makes
`extract` fall back to the textual strategy and return its result. On a cache
miss with the structural strategy throwing `boom`, and a script content on
which the textual strategy succeeds with `["Foo"]`, `fetchFunctions` returns
the wrapped structural error and not the fallback's result: no fallback is
attempted. -/
theorem claim_C1_counterexample :
    fetchFunctions [] "k" false (.error "boom") =
      (.error "Failed to parse PowerShell script: boom", []) ∧
    extractFunctions "function Foo \x7b\n\x7d\n" = ["Foo"] ∧
    (Except.error "Failed to parse PowerShell script: boom" : Except String JValue) ≠
      .ok (.arr ["Foo"]) :=
  ⟨rfl, rfl, fun h => Except.noConfusion h⟩

/-- Claim C1, amended. When the structural strategy throws and the cache does
not answer (forced reload, or no entry under the key), `fetchFunctions` raises
an error wrapping only the structural message — `Failed to parse PowerShell
script: <msg>` — without attempting any textual fallback and without touching
the cache. -/
theorem claim_C1_amended (cache : List (String × String)) (key msg : String)
    (forceReload : Bool)
    (h : forceReload = true ∨ cacheGet cache key = none) :
    fetchFunctions cache key forceReload (.error msg) =
      (.error ("Failed to parse PowerShell script: " ++ msg), cache) := by
  rcases h with h | h
  · subst h
    rw [fetchFunctions_force]
    rfl
  · cases forceReload with
    | true => rw [fetchFunctions_force]; rfl
    | false => rw [fetchFunctions_miss h]; rfl

/-- Claim C1, witness for the amended theorem at a concrete input. -/
theorem claim_C1_amended_witness :
    cacheGet [] "k" = none ∧
    fetchFunctions [] "k" false (.error "boom") =
      (.error ("Failed to parse PowerShell script: " ++ "boom"), []) :=
  ⟨rfl, claim_C1_amended [] "k" "boom" false (.inr rfl)⟩

/-- Claim C2, counterexample. The claim says extraction never returns
duplicate names. A script defining `Foo` twice yields `["Foo", "Foo"]`: the
extraction loop pushes every match and never de-duplicates. -/
theorem claim_C2_counterexample :
    extractFunctions "function Foo \x7b\n\x7d\nfunction Foo \x7b\n\x7d\n" = ["Foo", "Foo"] ∧
    ¬ (["Foo", "Foo"] : List String).Nodup :=
  ⟨rfl, by decide⟩

/-- Claim C2, amended. Extraction returns one entry per matching definition
occurrence, in source order; a name defined k times appears k times (duplicates
are preserved, not collapsed to the first occurrence). -/
theorem claim_C2_amended (n : String) (b : List String) (k : Nat)
    (hn : validIdent n = true) (hb : b.all validLine = true) :
    extractFunctions (renderScript (List.replicate k ⟨n, [], b⟩)) = List.replicate k n := by
  have hv : validScript (List.replicate k ⟨n, [], b⟩) = true := by
    simp only [validScript, List.all_eq_true]
    intro d hd
    rw [List.eq_of_mem_replicate hd]
    simp [validDef, hn, hb]
  rw [extract_renderScript hv]
  have hrep : ∀ m : Nat, List.map FnDef.name
      (List.filter (fun d => d.params.isEmpty)
        (List.replicate m (⟨n, [], b⟩ : FnDef))) = List.replicate m n := by
    intro m
    induction m with
    | zero => rfl
    | succ j ih => simp [List.replicate_succ, List.filter_cons, ih]
  exact hrep k

/-- Claim C2, witness: two copies of a zero-argument `Foo` extract to
`["Foo", "Foo"]`. -/
theorem claim_C2_amended_witness :
    validIdent "Foo" = true ∧
    extractFunctions (renderScript (List.replicate 2 ⟨"Foo", [], []⟩)) =
      List.replicate 2 "Foo" :=
  ⟨by decide, claim_C2_amended "Foo" [] 2 (by decide) rfl⟩

/-- Claim C3. For every generated script (zero-argument definitions rendered
without a parameter list, parameterized ones with a non-empty `($...)` list),
the textual extraction returns exactly the names of the zero-argument
definitions, in order of first appearance, and none of the parameterized
names; and on the concrete scenario script with `function Get-Status { ... }`
and `function Set-Value($x) { ... }` it returns exactly `["Get-Status"]`. -/
theorem claim_C3 :
    (∀ ds : List FnDef, validScript ds = true →
      extractFunctions (renderScript ds) =
        (ds.filter (fun d => d.params.isEmpty)).map FnDef.name) ∧
    extractFunctions
      "function Get-Status \x7b\n    Write-Output 'ok'\n\x7d\nfunction Set-Value($x) \x7b\n    $x\n\x7d\n" =
      ["Get-Status"] :=
  ⟨fun _ h => extract_renderScript h, rfl⟩

/-- Claim C3, witness: the generated two-definition script of scenario A. -/
theorem claim_C3_witness :
    validScript [⟨"Get-Status", [], ["Write-Output 1"]⟩, ⟨"Set-Value", ["x"], ["$x"]⟩] = true ∧
    extractFunctions (renderScript
      [⟨"Get-Status", [], ["Write-Output 1"]⟩, ⟨"Set-Value", ["x"], ["$x"]⟩]) =
      ["Get-Status"] :=
  ⟨by decide, (claim_C3.1 _ (by decide)).trans (by decide)⟩

/-- Claim C4. With the child process resolving (exit status zero), a non-empty
standard-error stream yields the Failed outcome carrying exactly that error
text; with empty standard error the outcome is Succeeded carrying the captured
(trimmed) stdout; and every invocation — including a rejected child process —
ends in a Succeeded or Failed outcome, never a raised exception (the final
toast style is total over all process results). -/
theorem claim_C4 (name stdout stderr msg : String) :
    (stderr ≠ "" → executePowerShellFunction name (.ok stdout stderr) =
      ⟨.failure, "Failed to Execute \"" ++ name ++ "\"", some stderr⟩) ∧
    (stderr = "" → executePowerShellFunction name (.ok stdout stderr) =
      ⟨.success, "Executed \"" ++ name ++ "\" Successfully",
        if jsTrim stdout ≠ "" then some ("Output: " ++ jsTrim stdout) else none⟩) ∧
    (executePowerShellFunction name (.err msg) =
      ⟨.failure, "Failed to Execute \"" ++ name ++ "\"", some msg⟩) ∧
    (∀ proc : ProcResult, (executePowerShellFunction name proc).style = .success ∨
      (executePowerShellFunction name proc).style = .failure) := by
  refine ⟨fun h => ?_, fun h => ?_, rfl, fun proc => ?_⟩
  · simp [executePowerShellFunction, h]
  · simp [executePowerShellFunction, h]
  · match proc with
    | .ok o e =>
      by_cases h : e ≠ ""
      · simp [executePowerShellFunction, h]
      · simp [executePowerShellFunction, h]
    | .err m => simp [executePowerShellFunction]

/-- Claim C4, witness: a process that exits successfully but writes to
standard error is a Failed outcome with that text. -/
theorem claim_C4_witness :
    ("warning" : String) ≠ "" ∧
    executePowerShellFunction "Get-Status" (.ok "partial output" "warning") =
      ⟨.failure, "Failed to Execute \"" ++ "Get-Status" ++ "\"", some "warning"⟩ :=
  ⟨by decide, (claim_C4 "Get-Status" "partial output" "warning" "").1 (by decide)⟩

/-- Claim C5. The command-building escape step is exactly the character map
doubling embedded single quotes and backslashes (everything else fixed), and
the concrete path of the specification escapes to the required literal. -/
theorem claim_C5 :
    (∀ path, escapePowerShellPath path = escapeSpec path) ∧
    escapePowerShellPath "C:\\Users\\O'Brien\\scripts\\f.ps1" =
      "C:\\\\Users\\\\O''Brien\\\\scripts\\\\f.ps1" :=
  ⟨escape_eq_spec, rfl⟩

/-- Claim C6, counterexample. The claim says a name failing the identifier
pattern is never embedded into the composed command. The code performs no
validation: the non-identifier name `Get-Status; Remove-Item X` is embedded
verbatim (it is a suffix of the composed command). -/
theorem claim_C6_counterexample :
    specIsIdentifier "Get-Status; Remove-Item X" = false ∧
    buildInvokeCommand "Get-Status; Remove-Item X" "C:\\s.ps1" =
      ". 'C:\\\\s.ps1'; Get-Status; Remove-Item X" ∧
    ("Get-Status; Remove-Item X" : String).data <:+
      (buildInvokeCommand "Get-Status; Remove-Item X" "C:\\s.ps1").data :=
  ⟨by decide, rfl, by decide⟩

/-- Claim C6, amended. No identifier validation exists: every function name,
identifier-shaped or not, is interpolated verbatim as the final segment of the
composed command (the command is the dot-source prefix followed by the
unmodified name). -/
theorem claim_C6_amended (name path : String) (_h : specIsIdentifier name = false) :
    (buildInvokeCommand name path).data =
      (". '" ++ escapePowerShellPath path ++ "'; ").data ++ name.data ∧
    name.data <:+ (buildInvokeCommand name path).data := by
  constructor
  · rfl
  · exact ⟨(". '" ++ escapePowerShellPath path ++ "'; ").data, rfl⟩

/-- Claim C6, witness for the amended theorem at a concrete non-identifier
name. -/
theorem claim_C6_amended_witness :
    specIsIdentifier "Foo; Bar" = false ∧
    (buildInvokeCommand "Foo; Bar" "C:\\s.ps1").data =
      (". '" ++ escapePowerShellPath "C:\\s.ps1" ++ "'; ").data ++ ("Foo; Bar" : String).data ∧
    ("Foo; Bar" : String).data <:+ (buildInvokeCommand "Foo; Bar" "C:\\s.ps1").data :=
  ⟨by decide, (claim_C6_amended "Foo; Bar" "C:\\s.ps1" (by decide)).1,
    (claim_C6_amended "Foo; Bar" "C:\\s.ps1" (by decide)).2⟩

/-- Claim C7, code bug. `handleReload` computes
`const cacheKey = getFileKey(resolvedPath)` without `await` and passes the
promise to `cache.remove` (its own comment says "Clear the cache"). Coerced to
a key string, a promise is `"[object Promise]"`, never the live
`functions-<path>-<mtime>` key: with the store holding the current key, the
reload removes nothing (first two conjuncts), whereas removing the actual
current key — the claimed and intended behaviour — would have cleared it
(third conjunct). The forced re-fetch it triggers does bypass the cache
(fourth conjunct). -/
theorem claim_C7_bug :
    handleReload [(getFileKey "C:\\s.ps1" "123", "[\"Foo\"]")] (some "C:\\s.ps1") =
      [(getFileKey "C:\\s.ps1" "123", "[\"Foo\"]")] ∧
    cacheGet (handleReload [(getFileKey "C:\\s.ps1" "123", "[\"Foo\"]")] (some "C:\\s.ps1"))
      (getFileKey "C:\\s.ps1" "123") = some "[\"Foo\"]" ∧
    cacheRemove [(getFileKey "C:\\s.ps1" "123", "[\"Foo\"]")]
      (getFileKey "C:\\s.ps1" "123") = [] ∧
    fetchFunctions [(getFileKey "C:\\s.ps1" "123", "[\"Foo\"]")]
      (getFileKey "C:\\s.ps1" "123") true (.ok "[]") =
      (.ok (.arr []), [(getFileKey "C:\\s.ps1" "123", "[]")]) :=
  ⟨by decide, by decide, by decide, rfl⟩

/-- Claim C8. Round trip and idempotence. A `set` followed by `get` of the
same key returns exactly the stored payload; serialization of a string list
followed by parsing is the identity; and a `loadNames(false)` call that
succeeded (`fetchFunctions` with `forceReload = false`) leaves the store so
that an immediately following call with the same key returns the identical
list and the identical store without consulting the structural strategy at
all (the second call's result is the same whatever the strategy argument
would do). -/
theorem claim_C8 :
    (∀ c k v, cacheGet (cacheSet c k v) k = some v) ∧
    (∀ xs : List String, jsonParse (jsonStringify (.arr xs)) = some (.arr xs)) ∧
    (∀ (c c2 : List (String × String)) (k : String) (s : Except String String) (v : JValue),
      fetchFunctions c k false s = (.ok v, c2) →
      ∀ s', fetchFunctions c2 k false s' = (.ok v, c2)) :=
  ⟨cacheGet_set_self, fun xs => jsonParse_stringify (.arr xs),
    fun _ _ _ _ _ h => fetch_second_call h⟩

/-- Claim C8, witness: after a first miss-then-extract call the second call
answers from the cache, even with a failing strategy argument. -/
theorem claim_C8_witness :
    fetchFunctions [] "k" false (.ok "[\"Foo\"]") =
      (.ok (.arr ["Foo"]), [("k", "[\"Foo\"]")]) ∧
    fetchFunctions [("k", "[\"Foo\"]")] "k" false (.error "no second parse") =
      (.ok (.arr ["Foo"]), [("k", "[\"Foo\"]")]) :=
  ⟨rfl, claim_C8.2.2 [] [("k", "[\"Foo\"]")] "k" (.ok "[\"Foo\"]") (.arr ["Foo"]) rfl
    (.error "no second parse")⟩

/-- Claim C9. The cache key is `functions-<path>-<mtime>`, a pure function of
the canonical path and the modification-time rendering; distinct timestamps
give distinct keys for the same path, so after a content change the lookup
under the new key misses and `fetchFunctions` takes the fresh-extraction path
instead of returning the stale entry. -/
theorem claim_C9 (p t1 t2 payload : String) (s : Except String String) (h : t1 ≠ t2) :
    getFileKey p t1 ≠ getFileKey p t2 ∧
    fetchFunctions [(getFileKey p t1, payload)] (getFileKey p t2) false s =
      fetchFresh [(getFileKey p t1, payload)] (getFileKey p t2) s := by
  have hk := getFileKey_mtime_inj p h
  exact ⟨hk, fetchFunctions_miss (cacheGet_single_ne hk) s⟩

/-- Claim C9, witness: timestamps `100` and `200` give distinct keys and a
fresh extraction on the second read. -/
theorem claim_C9_witness :
    ("100" : String) ≠ "200" ∧
    (getFileKey "C:\\s.ps1" "100" ≠ getFileKey "C:\\s.ps1" "200" ∧
      fetchFunctions [(getFileKey "C:\\s.ps1" "100", "[\"Old\"]")]
        (getFileKey "C:\\s.ps1" "200") false (.ok "[\"New\"]") =
        fetchFresh [(getFileKey "C:\\s.ps1" "100", "[\"Old\"]")]
          (getFileKey "C:\\s.ps1" "200") (.ok "[\"New\"]")) :=
  ⟨by decide, claim_C9 "C:\\s.ps1" "100" "200" "[\"Old\"]" (.ok "[\"New\"]") (by decide)⟩

/-- Claim C10. PowerShell's `ConvertTo-Json` of a single name prints a bare
JSON string; `JSON.parse` of such a stdout is a plain string, and
`fetchFunctions` returns it as-is — a `JValue.str`, not an array, despite the
declared `Promise<string[]>` type. For every stdout that is all whitespace or
parses as a JSON array of strings, the result is an array. -/
theorem claim_C10 :
    (jsonParse "\"Get-Status\"" = some (.str "Get-Status") ∧
     fetchFunctions [] "k" false (.ok "\"Get-Status\"") =
       (.ok (.str "Get-Status"), [("k", "\"Get-Status\"")]) ∧
     ∀ ys : List String, (Except.ok (JValue.str "Get-Status") : Except String JValue) ≠
       .ok (.arr ys)) ∧
    (∀ (c : List (String × String)) (k stdout : String) (xs : List String),
      cacheGet c k = none →
      (jsTrim stdout = "" ∨ jsonParse stdout = some (.arr xs)) →
      ∃ ys, (fetchFunctions c k false (.ok stdout)).1 = .ok (.arr ys)) := by
  refine ⟨⟨rfl, rfl, fun ys h => ?_⟩, fun c k stdout xs hc hs => ?_⟩
  · cases h
  · rw [fetchFunctions_miss hc]
    by_cases ht : jsTrim stdout = ""
    · exact ⟨[], by simp [fetchFresh, ht]⟩
    · rcases hs with hs | hs
      · exact absurd hs ht
      · exact ⟨xs, by simp [fetchFresh, ht, hs]⟩

/-- Claim C10, witness: a concrete all-whitespace stdout and a concrete array
stdout both produce arrays. -/
theorem claim_C10_witness :
    cacheGet [] "k" = none ∧
    (∃ ys, (fetchFunctions [] "k" false (.ok "[\"A\",\"B\"]")).1 = .ok (.arr ys)) :=
  ⟨rfl, claim_C10.2 [] "k" "[\"A\",\"B\"]" ["A", "B"] rfl (.inr rfl)⟩
